import Mathlib

/-!
# Verification of the tinymath fixed-point library (src/tinymath.h)

A shallow embedding of the Q16.16 fixed-point routines of `tinymath.h`.
A C `fixed` (= `int32_t`) value is modelled as an `Int` in
`[-2^31, 2^31)`; unsigned 64-bit intermediates are modelled as `Nat`
taken modulo `2^64`.

Modelling conventions for behaviour C leaves undefined or
implementation-defined, fixed to the conventional x86-64/gcc semantics the
library actually runs under:
  * signed overflow (negation, addition, left shift, narrowing casts)
    wraps, two's complement;
  * a 32-bit shift instruction masks its count to 5 bits, so the C
    expression `1<<i` evaluates to `1 << (i % 32)` (this matters in
    `div_fixed`, whose loop counter runs from 63 down to 0);
  * converting `int32_t` to `uint64_t` sign-extends;
  * `>>` on a negative signed value is an arithmetic shift (floor
    division by a power of two);
  * signed `/` and `%` truncate toward zero.
-/

namespace Tinymath

set_option maxRecDepth 16384

/-- Two's-complement bit pattern (as a `Nat` below `2^32`) of an `Int`,
i.e. the value stored into an `int32_t`. -/
def pat32 (z : Int) : Nat := (z % (2 ^ 32 : Int)).toNat

/-- Read a 32-bit pattern back as a signed `int32_t` value. -/
def toSigned32 (n : Nat) : Int :=
  if n % 2 ^ 32 < 2 ^ 31 then ((n % 2 ^ 32 : Nat) : Int)
  else ((n % 2 ^ 32 : Nat) : Int) - 2 ^ 32

/-- Wrap an `Int` into `int32_t` range (two's-complement narrowing). -/
def wrap32 (z : Int) : Int := toSigned32 (pat32 z)

/-- The `uint64_t` pattern obtained by converting an `int32_t` (given by its
32-bit pattern): sign extension. -/
def sx64 (n : Nat) : Nat :=
  if n % 2 ^ 32 < 2 ^ 31 then n % 2 ^ 32 else n % 2 ^ 32 + 0xFFFFFFFF00000000

/-- The value is representable in `int32_t` (the C `fixed` type). -/
def isFixed (z : Int) : Prop := -(2 ^ 31) ≤ z ∧ z < 2 ^ 31

instance (z : Int) : Decidable (isFixed z) := by unfold isFixed; infer_instance

/-! ## Constants (`#define`s of tinymath.h) -/

def FIXED_1 : Int := 0x10000
def FIXED_E : Int := 0x2B7E1
def FIXED_SQRT2 : Int := 0x16A0A
def FIXED_LN2 : Int := 0xB172
def FIXED_PI : Int := 0x3243F
def FIXED_PIBY2 : Int := 0x19220
def FIXED_3PIBY2 : Int := 0x4B65F
def FIXED_2PI : Int := 0x6487F
def INT_MAX : Int := 2 ^ 31 - 1

/-- `INT_TO_FIX(N)`: `(fixed)(N<<16)`. -/
def INT_TO_FIX (n : Int) : Int := wrap32 (n * 2 ^ 16)

/-! ## mul_fixed -/

/-- `mul_fixed`: sign/magnitude decomposition, 64-bit widening product,
shift right 16, narrow to 32 bits, reapply sign. -/
def mul_fixed (a b : Int) : Int :=
  let sign : Int := (if a < 0 then -1 else 1) * (if b < 0 then -1 else 1)
  let ma : Nat := if a < 0 then pat32 (-a) else pat32 a
  let mb : Nat := if b < 0 then pat32 (-b) else pat32 b
  let along : Nat := sx64 ma
  let blong : Nat := sx64 mb
  wrap32 (sign * toSigned32 (((along * blong) % 2 ^ 64) >>> 16))

/-! ## div_fixed

The C loop body is

    r <<= 1;
    r |= ((n & (1<<i))>>i);
    if (r >= b) { r -= b; q |= (1 << i); }

with `r` an `int32_t`, `n`, `q` `uint64_t`, and `i` running 63 … 0.  The
literal `1` is an `int`, so `1<<i` is a 32-bit shift whose count is masked
to 5 bits, and the resulting `int` is sign-extended when it meets the
`uint64_t` operands. -/

/-- The 32-bit pattern of the C expression `1<<i` (count masked mod 32). -/
def shiftPat (i : Nat) : Nat := (1 <<< (i % 32)) % 2 ^ 32

/-- One iteration of the `div_fixed` loop at index `i`; the state is
`(r, q)` with `r` the `int32_t` remainder's pattern and `q` the `uint64_t`
quotient accumulator. -/
def divStep (n mb : Nat) (i : Nat) (s : Nat × Nat) : Nat × Nat :=
  let r1 : Nat := (s.1 <<< 1) % 2 ^ 32
  let pulled : Nat := (n &&& sx64 (shiftPat i)) >>> i
  let r2 : Nat := (sx64 r1 ||| pulled) % 2 ^ 32
  if toSigned32 mb ≤ toSigned32 r2 then
    ((r2 + (2 ^ 32 - mb % 2 ^ 32)) % 2 ^ 32, (s.2 ||| sx64 (shiftPat i)) % 2 ^ 64)
  else
    (r2, s.2)

/-- The `div_fixed` loop: `divLoop n mb k s` runs the iterations
`i = k-1, k-2, …, 0` starting from state `s`; the full loop is
`divLoop n mb 64 (0, 0)`. -/
def divLoop (n mb : Nat) : Nat → Nat × Nat → Nat × Nat
  | 0, s => s
  | k + 1, s => divLoop n mb k (divStep n mb k s)

/-- `div_fixed`: sign/magnitude decomposition, the 64-iteration binary
long-division loop on the dividend shifted left 16, narrow the quotient to
32 bits, reapply sign. -/
def div_fixed (a b : Int) : Int :=
  let sign : Int := (if a < 0 then -1 else 1) * (if b < 0 then -1 else 1)
  let ma : Nat := if a < 0 then pat32 (-a) else pat32 a
  let mb : Nat := if b < 0 then pat32 (-b) else pat32 b
  let n : Nat := (sx64 ma <<< 16) % 2 ^ 64
  let q : Nat := (divLoop n mb 64 (0, 0)).2
  wrap32 (sign * toSigned32 q)

/-! ## get_scale -/

/-- The `get_scale` scan: with fuel `j + 1` the C variable `scale` holds
`j - 15` and the loop tests bit `scale + 15 = j`; fuel `0` is the loop
exit, returning `-16`. -/
def getScaleAux (pf : Nat) : Nat → Int
  | 0 => -16
  | j + 1 => if pf.testBit j then (j : Int) - 15 else getScaleAux pf j

/-- `get_scale`: linear scan for the most significant set bit among bits
30 … 0 of `f`, reported as `bit - 15`. -/
def get_scale (f : Int) : Int := getScaleAux (pat32 f) 31

/-! ## Square root -/

/-- Arithmetic right shift of an `int32_t` value (C `>>` on signed). -/
def shr32 (z : Int) (k : Nat) : Int := Int.fdiv z (2 ^ k)

/-- The iteration of `sqrt_NR_fixed`:
`rf = mul_fixed(INT_TO_FIX(2), rf + div_fixed(f, rf))`. -/
def sqrtNRIter (f : Int) : Nat → Int → Int
  | 0, rf => rf
  | k + 1, rf => sqrtNRIter f k (mul_fixed (INT_TO_FIX 2) (wrap32 (rf + div_fixed f rf)))

/-- `sqrt_NR_fixed`: linear seed `FIXED_1 + ((f - FIXED_1) >> 1)`, then
`niter` iterations. -/
def sqrt_NR_fixed (f : Int) (niter : Nat) : Int :=
  sqrtNRIter f niter (wrap32 (FIXED_1 + shr32 (wrap32 (f - FIXED_1)) 1))

/-- `sqrt_fast_fixed`: special cases for `0`, negatives and `FIXED_1`;
otherwise normalize by `2^div` via `get_scale`/`div_fixed`, run two
Newton iterations, multiply back `2^(div/2)` and `sqrt 2` for odd `div`. -/
def sqrt_fast_fixed (f : Int) : Int :=
  if f = 0 then 0
  else if f < 0 then -INT_MAX
  else if f = FIXED_1 then FIXED_1
  else
    let dv : Int := get_scale f - 1
    let f' : Int := div_fixed f (wrap32 (2 ^ (dv + 16).toNat))
    let root : Int := if Int.tmod dv 2 ≠ 0 then FIXED_SQRT2 else FIXED_1
    let dv' : Int := if dv < 0 then dv - 1 else dv
    let sf_root : Int := wrap32 (2 ^ (16 + Int.tdiv dv' 2).toNat)
    mul_fixed (mul_fixed root sf_root) (sqrt_NR_fixed f' 2)

/-! ## Natural log -/

/-- `ln_taylor_fixed`: 4-term Taylor expansion of `ln` around 1. -/
def ln_taylor_fixed (f : Int) : Int :=
  let g : Int := wrap32 (f - FIXED_1)
  let g2 : Int := mul_fixed g g
  let g3 : Int := mul_fixed g2 g
  let g4 : Int := mul_fixed g3 g
  wrap32 (wrap32 (wrap32 (g - shr32 g2 1) + div_fixed g3 (INT_TO_FIX 3)) - shr32 g4 2)

/-- `ln_fast_fixed`: sentinel `-INT_MAX` for `f <= 0`, `0` for `FIXED_1`,
otherwise normalize into `[1,2)` and add `div * ln 2` to the Taylor value. -/
def ln_fast_fixed (f : Int) : Int :=
  if f ≤ 0 then -INT_MAX
  else if f = FIXED_1 then 0
  else
    let dv : Int := get_scale f - 1
    let f' : Int := div_fixed f (wrap32 (2 ^ (dv + 16).toNat))
    wrap32 (mul_fixed (INT_TO_FIX dv) FIXED_LN2 + ln_taylor_fixed f')

/-! ## Fast divide (macro `div_fast_fixed`) -/

/-- `div_fast_fixed(a,b)`: `(b>>8) != 0 ? (a<<8)/(b>>8)
: ((a<<8) > 0 ? INT_MAX : -INT_MAX)`. -/
def div_fast_fixed (a b : Int) : Int :=
  if Int.fdiv b (2 ^ 8) ≠ 0 then
    wrap32 (Int.tdiv (wrap32 (a * 2 ^ 8)) (Int.fdiv b (2 ^ 8)))
  else if 0 < wrap32 (a * 2 ^ 8) then INT_MAX else -INT_MAX

/-! ## Sine

`sin_fixed` is recursive and its range-reduction `while` loop can fail to
make progress, so both are modelled with explicit fuel: `none` means the
computation has not produced a value within the given fuel. -/

/-- The 7th-order Maclaurin polynomial branch of `sin_fixed`. -/
def sinSeries (f : Int) : Int :=
  let f3 : Int := mul_fixed (mul_fixed f f) f
  let f5 : Int := mul_fixed (mul_fixed f3 f) f
  let f7 : Int := mul_fixed (mul_fixed f5 f) f
  wrap32 (wrap32 (wrap32 (f - div_fixed f3 (INT_TO_FIX 6)) +
    div_fixed f5 (INT_TO_FIX 120)) - div_fixed f7 (INT_TO_FIX 5040))

/-- The range-reduction `while` loop of `sin_fixed`: exits with the
current `f` once `0 < f < 2π`; otherwise runs the body (which leaves `f`
unchanged when `f` is exactly `0` or `2π`). -/
def sinReduce : Nat → Int → Option Int
  | 0, _ => none
  | fuel + 1, f =>
    if 0 < f ∧ f < FIXED_2PI then some f
    else if FIXED_2PI < f then sinReduce fuel (wrap32 (f - FIXED_2PI))
    else if f < 0 then sinReduce fuel (wrap32 (f + FIXED_2PI))
    else sinReduce fuel f

/-- `sin_fixed`: Maclaurin series on `(0, π/2)`, reflection identities on
the other three open quadrants, and the reduce-then-recurse fallback for
everything else (arguments outside `[0, 2π)` and the exact quadrant
boundaries). -/
def sin_fixed : Nat → Int → Option Int
  | 0, _ => none
  | fuel + 1, f =>
    if 0 < f ∧ f < FIXED_PIBY2 then some (sinSeries f)
    else if FIXED_PIBY2 < f ∧ f < FIXED_PI then sin_fixed fuel (wrap32 (FIXED_PI - f))
    else if FIXED_PI < f ∧ f < FIXED_3PIBY2 then
      (sin_fixed fuel (wrap32 (f - FIXED_PI))).map (fun x => wrap32 (-x))
    else if FIXED_3PIBY2 < f ∧ f < FIXED_2PI then
      (sin_fixed fuel (wrap32 (FIXED_2PI - f))).map (fun x => wrap32 (-x))
    else (sinReduce fuel f).bind (sin_fixed fuel)

/-! ## Decimal rendering -/

/-- `DEC_LOOKUP[i] = 10^12 * 2^-(i+1)`, truncated. -/
def DEC_LOOKUP : List Nat :=
  [500000000000, 250000000000, 125000000000, 62500000000, 31250000000,
   15625000000, 7812500000, 3906250000, 1953125000, 976562500, 488281250,
   244140625, 122070312, 61035156, 30517578, 15258789]

/-- The overflow threshold `10^12` of the decimal renderer. -/
def OVERFLOW_DEC : Nat := 1000000000000

/-- One iteration (bit `i`) of the fractional accumulation loop of
`fixed_to_dec_str`; the state is `(intpart, decpart)` with `intpart` a
`uint16_t`. -/
def decStep (pf : Nat) (i : Nat) (s : Nat × Nat) : Nat × Nat :=
  let dec : Nat := if pf.testBit i then s.2 + DEC_LOOKUP.getD (15 - i) 0 else s.2
  if OVERFLOW_DEC < dec then ((s.1 + 1) % 2 ^ 16, dec - OVERFLOW_DEC) else (s.1, dec)

/-- The fractional accumulation loop, bits `15 … 0`. -/
def decLoop (pf : Nat) : Nat → Nat × Nat → Nat × Nat
  | 0, s => s
  | j + 1, s => decLoop pf j (decStep pf j s)

/-- Decimal digit characters, the model of `printf`'s rendering. -/
def digitChar (d : Nat) : Char := Char.ofNat (48 + d % 10)

/-- Digits of a positive number, most significant first (empty for 0);
the first argument is fuel, always called with fuel ≥ the number. -/
def natCharsAux : Nat → Nat → List Char
  | 0, _ => []
  | fuel + 1, n => if n = 0 then [] else natCharsAux fuel (n / 10) ++ [digitChar (n % 10)]

/-- `%d`: decimal digits of a `Nat`, `"0"` for zero. -/
def natChars (n : Nat) : List Char := if n = 0 then ['0'] else natCharsAux n n

/-- The digit-count loop of `fixed_to_dec_str`
(`while (intpartcpy > 0) { len++; intpartcpy /= 10; }`); the first
argument is fuel, always called with fuel ≥ the number. -/
def digitsCountAux : Nat → Nat → Nat
  | 0, _ => 0
  | fuel + 1, n => if n = 0 then 0 else digitsCountAux fuel (n / 10) + 1

/-- Number of decimal digits of a positive number, 0 for zero. -/
def digitsCount (n : Nat) : Nat := digitsCountAux n n

/-- The trim loop of `fixed_to_dec_str`: starting at index `j - 1` and
walking down, counts consecutive `'0'` characters (each deducted from
`len` in the C code). -/
def countZeros (s : List Char) : Nat → Nat
  | 0 => 0
  | j + 1 => if s.getD j ' ' = '0' then countZeros s j + 1 else 0

/-- `fixed_to_dec_str`: sign/magnitude split, `uint16_t` integer part,
exact fractional expansion via `DEC_LOOKUP`, `snprintf(str, len,
" %d.%012ld", …)` into a buffer of `len = 15 + digits(intpart)` bytes
(so the output is truncated to `len - 1` characters), trailing-zero
trimming, and `'-'` overwriting the leading space for negatives. -/
def fixed_to_dec_str (f : Int) : String :=
  let neg : Bool := f < 0
  let pf : Nat := if f < 0 then pat32 (-f) else pat32 f
  let intpart0 : Nat := ((Int.fdiv (toSigned32 pf) (2 ^ 16)) % (2 ^ 16 : Int)).toNat
  let s : Nat × Nat := decLoop pf 16 (intpart0, 0)
  let len : Nat := 15 + digitsCount s.1
  let full : List Char :=
    ' ' :: natChars s.1 ++ '.' ::
      (List.replicate (12 - (natChars s.2).length) '0' ++ natChars s.2)
  let written : List Char := full.take (len - 1)
  let lenF : Nat := len - countZeros written (len - 1)
  let chars : List Char := written.take (lenF - 1)
  String.mk (if neg then chars.set 0 '-' else chars)

/-! ## Basic facts about the 32-bit helpers -/

lemma toSigned32_isFixed (n : Nat) : isFixed (toSigned32 n) := by
  unfold toSigned32 isFixed
  have h : n % 2 ^ 32 < 2 ^ 32 := Nat.mod_lt _ (by norm_num)
  split <;> omega

lemma wrap32_isFixed (z : Int) : isFixed (wrap32 z) := toSigned32_isFixed _

lemma toSigned32_small {n : Nat} (h : n < 2 ^ 31) : toSigned32 n = n := by
  unfold toSigned32
  rw [Nat.mod_eq_of_lt (by omega), if_pos h]

lemma sx64_small {n : Nat} (h : n < 2 ^ 31) : sx64 n = n := by
  unfold sx64
  rw [Nat.mod_eq_of_lt (by omega), if_pos h]

lemma pat32_small {z : Int} (h0 : 0 ≤ z) (h1 : z < 2 ^ 32) : pat32 z = z.toNat := by
  unfold pat32
  rw [Int.emod_eq_of_lt h0 h1]

lemma wrap32_id {z : Int} (h0 : -(2 ^ 31) ≤ z) (h1 : z < 2 ^ 31) : wrap32 z = z := by
  unfold wrap32 pat32 toSigned32
  split <;> omega

/-! ## Correctness of the `div_fixed` loop on its safe envelope

With a dividend below `2^31` in magnitude, a divisor magnitude in
`[1, 2^30]` and a quotient below `2^31`, the loop is a correct restoring
binary division: the 32 iterations `i = 63 … 32` leave the state at
`(0, 0)`, iteration 31 pulls `n >>> 31` into the remainder in one go (the
sign-extended mask `(uint64_t)(int)(1 << 31)` covers bits 31 … 63), and
iterations `30 … 0` perform the textbook compare-and-subtract step. -/

lemma shiftPat_lt {k : Nat} (h : k < 32) : shiftPat k = 2 ^ k := by
  unfold shiftPat
  rw [Nat.mod_eq_of_lt h, Nat.shiftLeft_eq, Nat.one_mul]
  exact Nat.mod_eq_of_lt (Nat.pow_lt_pow_right (by norm_num) h)

lemma shiftPat_ge {i : Nat} (h32 : 32 ≤ i) (h64 : i < 64) : shiftPat i = 2 ^ (i - 32) := by
  unfold shiftPat
  have h : i % 32 = i - 32 := by omega
  rw [h, Nat.shiftLeft_eq, Nat.one_mul]
  exact Nat.mod_eq_of_lt (Nat.pow_lt_pow_right (by norm_num) (by omega))

lemma sx64_shiftPat_31 : sx64 (shiftPat 31) = 2 ^ 64 - 2 ^ 31 := by
  rw [shiftPat_lt (by norm_num)]
  unfold sx64
  norm_num

lemma land_high_shiftRight {n : Nat} (hn : n < 2 ^ 64) :
    (n &&& (2 ^ 64 - 2 ^ 31)) >>> 31 = n >>> 31 := by
  apply Nat.eq_of_testBit_eq
  intro j
  rw [Nat.testBit_shiftRight, Nat.testBit_shiftRight, Nat.testBit_and]
  have hm : (2 ^ 64 - 2 ^ 31 : Nat) = 2 ^ 31 * (2 ^ 33 - 1) := by norm_num
  rw [hm, Nat.testBit_mul_pow_two]
  have h1 : 31 + j - 31 = j := by omega
  rw [h1, Nat.testBit_two_pow_sub_one]
  rcases Nat.lt_or_ge j 33 with hj | hj
  · simp [hj]
  · have hb : n.testBit (31 + j) = false :=
      Nat.testBit_lt_two_pow (lt_of_lt_of_le hn (Nat.pow_le_pow_right (by norm_num) (by omega)))
    simp [hb]

lemma divStep_high {n mb : Nat} (i : Nat) (h32 : 32 ≤ i) (h64 : i < 64)
    (hn : n < 2 ^ 47) (hmb1 : 0 < mb) (hmb2 : mb < 2 ^ 31) :
    divStep n mb i (0, 0) = (0, 0) := by
  have hpull : (n &&& sx64 (shiftPat i)) >>> i = 0 := by
    rcases Nat.lt_or_ge i 63 with h63 | h63
    · rw [shiftPat_ge h32 h64,
        sx64_small (Nat.pow_lt_pow_right (by norm_num) (by omega)),
        Nat.shiftRight_eq_div_pow]
      apply Nat.div_eq_of_lt
      exact lt_of_le_of_lt Nat.and_le_right (Nat.pow_lt_pow_right (by norm_num) (by omega))
    · have h : i = 63 := by omega
      subst h
      rw [Nat.shiftRight_eq_div_pow]
      apply Nat.div_eq_of_lt
      exact lt_of_le_of_lt Nat.and_le_left (lt_trans hn (by norm_num))
  unfold divStep
  simp only [hpull]
  rw [if_neg]
  · simp [sx64_small]
  · rw [toSigned32_small hmb2]
    simp only [Nat.zero_shiftLeft, Nat.zero_mod, sx64_small (show (0:Nat) < 2^31 by norm_num)]
    rw [Nat.zero_or, Nat.zero_mod, toSigned32_small (by norm_num)]
    omega

lemma divLoop_high {n mb : Nat} (hn : n < 2 ^ 47) (hmb1 : 0 < mb) (hmb2 : mb < 2 ^ 31) :
    ∀ j, j ≤ 32 → divLoop n mb (32 + j) (0, 0) = divLoop n mb 32 (0, 0) := by
  intro j
  induction j with
  | zero => intro; rfl
  | succ j ih =>
    intro hj
    have : 32 + (j + 1) = (32 + j) + 1 := by omega
    rw [this]
    show divLoop n mb (32 + j) (divStep n mb (32 + j) (0, 0)) = _
    rw [divStep_high (32 + j) (by omega) (by omega) hn hmb1 hmb2]
    exact ih (by omega)

lemma divStep_31 {n mb : Nat} (hn : n < 2 ^ 47) (hmb1 : 0 < mb) (hmb2 : mb < 2 ^ 31)
    (hlt : n >>> 31 < mb) :
    divStep n mb 31 (0, 0) = (n >>> 31, 0) := by
  have hr : n >>> 31 < 2 ^ 16 := by
    rw [Nat.shiftRight_eq_div_pow]
    rw [Nat.div_lt_iff_lt_mul (by norm_num)]
    calc n < 2 ^ 47 := hn
      _ = 2 ^ 16 * 2 ^ 31 := by norm_num
      _ = _ := by ring
  unfold divStep
  rw [sx64_shiftPat_31, land_high_shiftRight (lt_trans hn (by norm_num))]
  simp only [Nat.zero_shiftLeft, Nat.zero_mod, sx64_small (show (0:Nat) < 2^31 by norm_num),
    Nat.zero_or]
  rw [Nat.mod_eq_of_lt (by omega), if_neg]
  rw [toSigned32_small hmb2, toSigned32_small (by omega)]
  omega

lemma divStep_low {n mb : Nat} (k : Nat) (hk : k ≤ 30) (hn : n < 2 ^ 47)
    (hmb1 : 0 < mb) (hmb2 : mb ≤ 2 ^ 30) :
    divStep n mb k ((n >>> (k + 1)) % mb, ((n / mb) >>> (k + 1)) * 2 ^ (k + 1))
      = ((n >>> k) % mb, ((n / mb) >>> k) * 2 ^ k) := by
  have hmb31 : mb < 2 ^ 31 := lt_of_le_of_lt hmb2 (by norm_num)
  have hsp : sx64 (shiftPat k) = 2 ^ k := by
    rw [shiftPat_lt (by omega)]
    exact sx64_small (Nat.pow_lt_pow_right (by norm_num) (by omega))
  have hpull : (n &&& 2 ^ k) >>> k = (n >>> k) % 2 := by
    rw [Nat.and_two_pow, Nat.shiftRight_eq_div_pow, Nat.mul_div_cancel _ (Nat.two_pow_pos k),
      Nat.testBit_to_div_mod, Nat.shiftRight_eq_div_pow]
    rcases Nat.mod_two_eq_zero_or_one (n / 2 ^ k) with h | h <;> simp [h]
  have hr_lt : (n >>> (k + 1)) % mb < mb := Nat.mod_lt _ hmb1
  set r : Nat := (n >>> (k + 1)) % mb with hr
  set β : Nat := (n >>> k) % 2 with hβ
  have hβ2 : β < 2 := Nat.mod_lt _ (by norm_num)
  have hr1 : (r <<< 1) % 2 ^ 32 = 2 * r := by
    rw [Nat.shiftLeft_eq, Nat.mod_eq_of_lt (by omega)]
    ring
  have hsx : sx64 (2 * r) = 2 * r := sx64_small (by omega)
  have hor : ((2 * r) ||| β) % 2 ^ 32 = 2 * r + β := by
    have h := Nat.mul_add_lt_is_or (show β < 2 ^ 1 by omega) r
    rw [pow_one] at h
    rw [← h]
    exact Nat.mod_eq_of_lt (by omega)
  have hAsplit : n >>> k = 2 * (n >>> (k + 1)) + β := by
    rw [hβ, Nat.shiftRight_eq_div_pow, Nat.shiftRight_eq_div_pow, pow_succ,
      ← Nat.div_div_eq_div_mul]
    omega
  have hdiv : (n >>> k) / mb = (n / mb) >>> k := by
    rw [Nat.shiftRight_eq_div_pow, Nat.shiftRight_eq_div_pow, Nat.div_div_eq_div_mul,
      Nat.div_div_eq_div_mul, Nat.mul_comm]
  have hdiv' : (n / mb) >>> (k + 1) = (n >>> (k + 1)) / mb := by
    rw [Nat.shiftRight_eq_div_pow, Nat.shiftRight_eq_div_pow, Nat.div_div_eq_div_mul,
      Nat.div_div_eq_div_mul, Nat.mul_comm]
  set q' : Nat := (n >>> (k + 1)) / mb with hq'
  have hDmod : mb * q' + r = n >>> (k + 1) := Nat.div_add_mod _ _
  have hq'bound : mb * q' ≤ n := by
    calc mb * q' ≤ n >>> (k + 1) := by omega
      _ = n / 2 ^ (k + 1) := Nat.shiftRight_eq_div_pow _ _
      _ ≤ n := Nat.div_le_self _ _
  -- the two Euclidean step outcomes
  have key1 : mb ≤ 2 * r + β →
      (n >>> k) % mb = 2 * r + β - mb ∧ (n >>> k) / mb = 2 * q' + 1 := by
    intro hc
    have hmul : mb * (2 * q' + 1) = 2 * (mb * q') + mb := by ring
    have e1 : n >>> k = (2 * r + β - mb) + mb * (2 * q' + 1) := by omega
    constructor
    · rw [e1, Nat.add_mul_mod_self_left, Nat.mod_eq_of_lt (by omega)]
    · rw [e1, Nat.add_mul_div_left _ _ hmb1, Nat.div_eq_of_lt (by omega)]
      omega
  have key2 : 2 * r + β < mb →
      (n >>> k) % mb = 2 * r + β ∧ (n >>> k) / mb = 2 * q' := by
    intro hc
    have hmul : mb * (2 * q') = 2 * (mb * q') := by ring
    have e2 : n >>> k = (2 * r + β) + mb * (2 * q') := by omega
    constructor
    · rw [e2, Nat.add_mul_mod_self_left, Nat.mod_eq_of_lt (by omega)]
    · rw [e2, Nat.add_mul_div_left _ _ hmb1, Nat.div_eq_of_lt (by omega)]
      omega
  -- unfold the step
  unfold divStep
  simp only [hsp, hpull, ← hβ, hr1, hsx, hor, hdiv', ← hq', ← hdiv]
  rw [toSigned32_small hmb31, toSigned32_small (show 2 * r + β < 2 ^ 31 by omega)]
  by_cases hc : mb ≤ 2 * r + β
  · rw [if_pos (by exact_mod_cast hc)]
    obtain ⟨hm, hd⟩ := key1 hc
    have hmbmod : mb % 2 ^ 32 = mb := Nat.mod_eq_of_lt (by omega)
    have hsub : 2 * r + β + (2 ^ 32 - mb % 2 ^ 32) = (2 * r + β - mb) + 2 ^ 32 := by
      rw [hmbmod]; omega
    have hlor : (q' * 2 ^ (k + 1)) ||| 2 ^ k = q' * 2 ^ (k + 1) + 2 ^ k := by
      have h := Nat.mul_add_lt_is_or
        (show (2 : Nat) ^ k < 2 ^ (k + 1) from Nat.pow_lt_pow_right (by norm_num) (by omega)) q'
      rw [Nat.mul_comm (2 ^ (k + 1)) q'] at h
      exact h.symm
    have hqlt : q' * 2 ^ (k + 1) + 2 ^ k < 2 ^ 64 := by
      have h1 : q' * 2 ^ (k + 1) ≤ n >>> (k + 1) * 2 ^ (k + 1) := by
        exact Nat.mul_le_mul_right _ (Nat.div_le_self _ _)
      have h2 : n >>> (k + 1) * 2 ^ (k + 1) ≤ n := by
        rw [Nat.shiftRight_eq_div_pow]
        exact Nat.div_mul_le_self _ _
      have h3 : (2 : Nat) ^ k ≤ 2 ^ 30 := Nat.pow_le_pow_right (by norm_num) hk
      omega
    rw [hsub, Nat.add_mod_right, Nat.mod_eq_of_lt (by omega), hm, hlor,
      Nat.mod_eq_of_lt hqlt, hd]
    rw [pow_succ]
    ring_nf
  · rw [if_neg (by exact_mod_cast hc)]
    obtain ⟨hm, hd⟩ := key2 (by omega)
    rw [hm, hd]
    rw [pow_succ]
    ring_nf

lemma divLoop_low {n mb : Nat} (hn : n < 2 ^ 47) (hmb1 : 0 < mb) (hmb2 : mb ≤ 2 ^ 30) :
    ∀ k, k ≤ 31 →
      divLoop n mb k ((n >>> k) % mb, ((n / mb) >>> k) * 2 ^ k) = (n % mb, n / mb) := by
  intro k
  induction k with
  | zero =>
    intro
    show ((n >>> 0) % mb, ((n / mb) >>> 0) * 2 ^ 0) = (n % mb, n / mb)
    simp [Nat.shiftRight_zero]
  | succ k ih =>
    intro hk
    show divLoop n mb k (divStep n mb k _) = _
    rw [divStep_low k (by omega) hn hmb1 hmb2]
    exact ih (by omega)

lemma divLoop_full {n mb : Nat} (hn : n < 2 ^ 47) (hmb1 : 0 < mb) (hmb2 : mb ≤ 2 ^ 30)
    (hq : n / mb < 2 ^ 31) :
    divLoop n mb 64 (0, 0) = (n % mb, n / mb) := by
  have hmb31 : mb < 2 ^ 31 := lt_of_le_of_lt hmb2 (by norm_num)
  have h64 : (64 : Nat) = 32 + 32 := by norm_num
  rw [h64, divLoop_high hn hmb1 hmb31 32 (le_refl _)]
  have h32 : (32 : Nat) = 31 + 1 := by norm_num
  rw [h32]
  show divLoop n mb 31 (divStep n mb 31 (0, 0)) = _
  have hlt : n >>> 31 < mb := by
    rw [Nat.shiftRight_eq_div_pow, Nat.div_lt_iff_lt_mul (by norm_num)]
    rw [Nat.div_lt_iff_lt_mul hmb1] at hq
    calc n < 2 ^ 31 * mb := hq
      _ = mb * 2 ^ 31 := Nat.mul_comm _ _
  rw [divStep_31 hn hmb1 hmb31 hlt]
  have hstate : (n >>> 31, (0 : Nat)) = ((n >>> 31) % mb, ((n / mb) >>> 31) * 2 ^ 31) := by
    rw [Nat.mod_eq_of_lt hlt]
    have : (n / mb) >>> 31 = 0 := by
      rw [Nat.shiftRight_eq_div_pow]
      exact Nat.div_eq_of_lt hq
    rw [this, Nat.zero_mul]
  rw [hstate]
  exact divLoop_low hn hmb1 hmb2 31 (le_refl _)

/-- `div_fixed` computes the sign-adjusted floor quotient
`(|a| << 16) / |b|` whenever the operands stay inside the loop's safe
envelope: `|a| < 2^31`, `1 ≤ |b| ≤ 2^30` and a quotient below `2^31`.
(Outside that envelope the `int`-typed shift masks and the 32-bit
remainder register corrupt the result.) -/
theorem div_fixed_eq (a b : Int) (ha : a.natAbs < 2 ^ 31) (hb0 : b ≠ 0)
    (hb : b.natAbs ≤ 2 ^ 30) (hq : a.natAbs * 2 ^ 16 / b.natAbs < 2 ^ 31) :
    div_fixed a b = if (a < 0 ↔ b < 0) then ((a.natAbs * 2 ^ 16 / b.natAbs : Nat) : Int)
      else -((a.natAbs * 2 ^ 16 / b.natAbs : Nat) : Int) := by
  have hb1 : 0 < b.natAbs := Int.natAbs_pos.mpr hb0
  have hma : (if a < 0 then pat32 (-a) else pat32 a) = a.natAbs := by
    split
    · rw [pat32_small (by omega) (by omega)]
      omega
    · rw [pat32_small (by omega) (by omega)]
      omega
  have hmb : (if b < 0 then pat32 (-b) else pat32 b) = b.natAbs := by
    split
    · rw [pat32_small (by omega) (by omega)]
      omega
    · rw [pat32_small (by omega) (by omega)]
      omega
  have hn47 : a.natAbs * 2 ^ 16 < 2 ^ 47 := by
    calc a.natAbs * 2 ^ 16 < 2 ^ 31 * 2 ^ 16 :=
          (Nat.mul_lt_mul_right (by norm_num)).mpr ha
      _ = 2 ^ 47 := by norm_num
  have hn : (sx64 a.natAbs <<< 16) % 2 ^ 64 = a.natAbs * 2 ^ 16 := by
    rw [sx64_small (by omega), Nat.shiftLeft_eq]
    exact Nat.mod_eq_of_lt (by omega)
  simp only [div_fixed, hma, hmb, hn, divLoop_full hn47 hb1 hb hq]
  rw [toSigned32_small (by omega)]
  have hQlt : ((a.natAbs * 2 ^ 16 / b.natAbs : Nat) : Int) < 2 ^ 31 := by exact_mod_cast hq
  have hQ0 : (0 : Int) ≤ ((a.natAbs * 2 ^ 16 / b.natAbs : Nat) : Int) := Int.natCast_nonneg _
  generalize hg : ((a.natAbs * 2 ^ 16 / b.natAbs : Nat) : Int) = Q at hQlt hQ0 ⊢
  by_cases h : a < 0 <;> by_cases h' : b < 0
  · rw [if_pos h, if_pos h', if_pos (iff_of_true h h'),
      show (-1 : Int) * -1 * Q = Q from by ring, wrap32_id (by omega) hQlt]
  · rw [if_pos h, if_neg h', if_neg (by simp [h, h']),
      show (-1 : Int) * 1 * Q = -Q from by ring, wrap32_id (by omega) (by omega)]
  · rw [if_neg h, if_pos h', if_neg (by simp [h, h']),
      show (1 : Int) * -1 * Q = -Q from by ring, wrap32_id (by omega) (by omega)]
  · rw [if_neg h, if_neg h', if_pos (iff_of_false h h'),
      show (1 : Int) * 1 * Q = Q from by ring, wrap32_id (by omega) hQlt]

/-! ## Claim theorems: multiply/divide -/

lemma pat32_abs {x : Int} (hx : x.natAbs < 2 ^ 32) :
    (if x < 0 then pat32 (-x) else pat32 x) = x.natAbs := by
  split
  · rw [pat32_small (by omega) (by omega)]
    omega
  · rw [pat32_small (by omega) (by omega)]
    omega

lemma mul_fixed_one (x : Int) (hx : isFixed x) : mul_fixed FIXED_1 x = x := by
  rcases eq_or_ne x (-(2 ^ 31)) with h | h
  · subst h
    decide
  · have hxa : x.natAbs < 2 ^ 31 := by unfold isFixed at hx; omega
    have e1 : (if FIXED_1 < 0 then (-1 : Int) else 1) = 1 := if_neg (by norm_num [FIXED_1])
    have e2 : (if FIXED_1 < 0 then pat32 (-FIXED_1) else pat32 FIXED_1) = 2 ^ 16 := by
      rw [if_neg (by norm_num [FIXED_1]), pat32_small (by norm_num [FIXED_1])
        (by norm_num [FIXED_1])]
      decide
    simp only [mul_fixed, e1, e2, one_mul, pat32_abs (show x.natAbs < 2 ^ 32 by omega)]
    rw [sx64_small (show (2 : Nat) ^ 16 < 2 ^ 31 by norm_num), sx64_small (by omega)]
    have hprod : (2 ^ 16 * x.natAbs) % 2 ^ 64 = 2 ^ 16 * x.natAbs := by
      apply Nat.mod_eq_of_lt
      calc 2 ^ 16 * x.natAbs < 2 ^ 16 * 2 ^ 31 := (Nat.mul_lt_mul_left (by norm_num)).mpr hxa
        _ < 2 ^ 64 := by norm_num
    rw [hprod, Nat.shiftRight_eq_div_pow, Nat.mul_div_cancel_left _ (by norm_num : 0 < 2 ^ 16),
      toSigned32_small hxa]
    by_cases hx0 : x < 0
    · rw [if_pos hx0, show (-1 : Int) * x.natAbs = x from by omega,
        wrap32_id (by omega) (by omega)]
    · rw [if_neg hx0, show (1 : Int) * x.natAbs = x from by omega,
        wrap32_id (by omega) (by omega)]

/-- C2 (amended): `mul_fixed(FIXED_1, x) = x` for every representable
`x`, and `div_fixed(x, FIXED_1) = x` for every representable `x` except
`INT_MIN = -2^31` (where the magnitude negation wraps and the division
loop returns `-32768` instead). -/
theorem mul_div_identity (x : Int) (hx : isFixed x) :
    mul_fixed FIXED_1 x = x ∧ (x ≠ -(2 ^ 31) → div_fixed x FIXED_1 = x) := by
  refine ⟨mul_fixed_one x hx, fun hmin => ?_⟩
  have hxa : x.natAbs < 2 ^ 31 := by unfold isFixed at hx; omega
  have habs : (FIXED_1 : Int).natAbs = 2 ^ 16 := by decide
  have hqv : x.natAbs * 2 ^ 16 / (FIXED_1 : Int).natAbs = x.natAbs := by
    rw [habs]
    exact Nat.mul_div_cancel _ (by norm_num)
  have h := div_fixed_eq x FIXED_1 hxa (by norm_num [FIXED_1])
    (by rw [habs]; norm_num) (by rw [hqv]; exact hxa)
  rw [hqv] at h
  rw [h]
  by_cases hx0 : x < 0
  · rw [if_neg (by norm_num [FIXED_1, hx0])]
    omega
  · rw [if_pos (by norm_num [FIXED_1, hx0])]
    omega

/-- C2 (counterexample): the divide identity fails at `INT_MIN`:
`div_fixed(-2^31, FIXED_1)` is `-32768`, not `-2^31`. -/
theorem div_one_fails_at_int_min :
    div_fixed (-(2 ^ 31)) FIXED_1 = -32768 ∧ div_fixed (-(2 ^ 31)) FIXED_1 ≠ -(2 ^ 31) := by
  constructor <;> decide

/-- C2 (witness). -/
theorem mul_div_identity_witness :
    mul_fixed FIXED_1 (-163840) = -163840 ∧ div_fixed (-163840) FIXED_1 = -163840 :=
  ⟨(mul_div_identity (-163840) (by decide)).1,
   (mul_div_identity (-163840) (by decide)).2 (by decide)⟩

/-- C1: `div_fixed` is not the claimed restoring long division: at
`a = FIXED_1`, `b = 2^30 + 1` the claimed value is the floor quotient
`(65536 << 16) / (2^30 + 1) = 3`, but the code returns `0` — the
`int`-typed remainder register wraps at `2^31` and the comparison
`r >= b` then fails, so no quotient bit is ever set. -/
theorem div_fixed_not_restoring :
    div_fixed 65536 1073741825 = 0 ∧ (65536 * 65536) / 1073741825 = (3 : Nat) := by
  constructor
  · decide
  · norm_num

/-- C10: `div_fixed` is a total function computed by exactly 64
iterations of `divStep` with no division instruction: for every pair of
operands — the divisor `0` included — it returns a representable
`fixed` value; at `b = 0` the subtract-and-set branch fires on every
iteration and the result is an ordinary value (`-1` for `a = FIXED_1`). -/
theorem div_fixed_total :
    (∀ a b : Int, isFixed (div_fixed a b)) ∧ div_fixed 65536 0 = -1 := by
  constructor
  · intro a b
    exact wrap32_isFixed _
  · decide

/-! ## Claim theorems: sentinels, fast divide, square root -/

/-- C5: domain-error sentinels: `sqrt_fast_fixed` returns
`-INT_MAX = -(2^31 - 1)` for every negative input, `ln_fast_fixed`
returns that same sentinel for every non-positive input, and
`sqrt_fast_fixed` maps `0` to `0` and `FIXED_1` to `FIXED_1` exactly. -/
theorem sqrt_ln_sentinels :
    (∀ f : Int, f < 0 → sqrt_fast_fixed f = -(2 ^ 31 - 1)) ∧
    (∀ f : Int, f ≤ 0 → ln_fast_fixed f = -(2 ^ 31 - 1)) ∧
    sqrt_fast_fixed 0 = 0 ∧ sqrt_fast_fixed FIXED_1 = FIXED_1 := by
  refine ⟨fun f hf => ?_, fun f hf => ?_, by decide, by decide⟩
  · simp only [sqrt_fast_fixed]
    rw [if_neg (by omega), if_pos hf]
    decide
  · simp only [ln_fast_fixed]
    rw [if_pos hf]
    decide

/-- C8 (counterexample): a positive dividend does not always get the
positive sentinel: at `a = 2^23 > 0`, `b = 0` the tested quantity
`a << 8` wraps to `-2^31`, so `div_fast_fixed` returns `-INT_MAX`. -/
theorem div_fast_sign_misread :
    div_fast_fixed 8388608 0 = -(2 ^ 31 - 1) ∧ (0 : Int) < 8388608 := by
  constructor <;> decide

/-- C8 (amended): when the truncated divisor `b >> 8` is zero, the
sentinel's sign is chosen by the sign of the wrapped product `a << 8`,
which matches the dividend's sign only for `|a| < 2^23`: there
`div_fast_fixed` returns `INT_MAX` for positive `a` and `-INT_MAX` for
negative `a`. -/
theorem div_fast_zero_divisor (a b : Int) (hb : Int.fdiv b (2 ^ 8) = 0) :
    (0 < a → a < 2 ^ 23 → div_fast_fixed a b = 2 ^ 31 - 1) ∧
    (-(2 ^ 23) ≤ a → a < 0 → div_fast_fixed a b = -(2 ^ 31 - 1)) := by
  constructor
  · intro h1 h2
    simp only [div_fast_fixed]
    rw [if_neg (by simpa using hb), wrap32_id (by omega) (by omega), if_pos (by omega)]
    decide
  · intro h1 h2
    simp only [div_fast_fixed]
    rw [if_neg (by simpa using hb), wrap32_id (by omega) (by omega), if_neg (by omega)]
    decide

/-- C8 (witness). -/
theorem div_fast_zero_divisor_witness :
    div_fast_fixed 3 0 = 2 ^ 31 - 1 ∧ div_fast_fixed (-3) 0 = -(2 ^ 31 - 1) :=
  ⟨(div_fast_zero_divisor 3 0 (by decide)).1 (by decide) (by decide),
   (div_fast_zero_divisor (-3) 0 (by decide)).2 (by decide) (by decide)⟩

/-- C3: the iteration in `sqrt_NR_fixed` is
`rf ← mul_fixed(INT_TO_FIX(2), rf + div_fixed(f, rf))`, i.e.
`2 * (rf + f/rf)` rather than the Newton-Raphson `(rf + f/rf) / 2` the
claim states, and it diverges instead of converging: at `f = 1.5`
(`98304`) the routine returns `682376 ≈ 10.41`, above `4.0`, while
`√1.5 ≈ 1.2247` (`≈ 80264`). -/
theorem sqrt_fast_wrong_update :
    sqrt_fast_fixed 98304 = 682376 ∧ 4 * FIXED_1 < sqrt_fast_fixed 98304 := by
  constructor <;> decide

/-! ## Claim theorems: sine termination -/

lemma sinReduce_zero : ∀ fuel, sinReduce fuel 0 = none := by
  intro fuel
  induction fuel with
  | zero => rfl
  | succ fuel ih =>
    simp only [sinReduce]
    rw [if_neg (by decide), if_neg (by decide), if_neg (by decide)]
    exact ih

lemma sinReduce_in_range {f : Int} (h1 : 0 < f) (h2 : f < FIXED_2PI) (fuel : Nat) :
    sinReduce (fuel + 1) f = some f := by
  simp only [sinReduce]
  rw [if_pos ⟨h1, h2⟩]

/-- C4: `sin_fixed` does not terminate on every argument: at the exact
quadrant boundary `f = 0` all four quadrant conditionals are false (they
are strict), and the range-reduction `while` loop's body leaves `f = 0`
unchanged (`f > 2π` and `f < 0` are both false), so the loop never
exits: in the fuelled model the function yields no value for any amount
of fuel. -/
theorem sin_zero_no_value : ∀ fuel : Nat, sin_fixed fuel 0 = none := by
  intro fuel
  cases fuel with
  | zero => rfl
  | succ fuel =>
    simp only [sin_fixed]
    rw [if_neg (by decide), if_neg (by decide), if_neg (by decide), if_neg (by decide),
      sinReduce_zero]
    rfl

/-- C9: `sin_fixed` at the exact constants `FIXED_PIBY2` and `FIXED_PI`
returns nothing at all (so in particular not a value near `FIXED_1`
resp. `0`): the strict quadrant conditionals all miss the boundary, the
reduction loop returns the argument unchanged (it already lies in
`(0, 2π)`), and the function recurses on the same argument forever — in
the fuelled model, `none` for every fuel. -/
theorem sin_boundary_constants_no_value :
    (∀ fuel : Nat, sin_fixed fuel FIXED_PIBY2 = none) ∧
    (∀ fuel : Nat, sin_fixed fuel FIXED_PI = none) := by
  constructor
  · intro fuel
    induction fuel with
    | zero => rfl
    | succ fuel ih =>
      simp only [sin_fixed]
      rw [if_neg (by decide), if_neg (by decide), if_neg (by decide), if_neg (by decide)]
      cases fuel with
      | zero => rfl
      | succ fuel' =>
        rw [sinReduce_in_range (by decide) (by decide)]
        exact ih
  · intro fuel
    induction fuel with
    | zero => rfl
    | succ fuel ih =>
      simp only [sin_fixed]
      rw [if_neg (by decide), if_neg (by decide), if_neg (by decide), if_neg (by decide)]
      cases fuel with
      | zero => rfl
      | succ fuel' =>
        rw [sinReduce_in_range (by decide) (by decide)]
        exact ih

/-! ## Claim theorems: get_scale -/

lemma getScaleAux_spec (pf : Nat) :
    ∀ j, 0 < pf → pf < 2 ^ j →
      ∃ k : Nat, getScaleAux pf j = (k : Int) - 15 ∧
        2 ^ k ≤ pf ∧ pf < 2 ^ (k + 1) ∧ k < j := by
  intro j
  induction j with
  | zero =>
    intro h1 h2
    norm_num at h2
    omega
  | succ j ih =>
    intro h1 h2
    simp only [getScaleAux]
    by_cases hb : pf.testBit j
    · rw [if_pos hb]
      exact ⟨j, rfl, Nat.testBit_implies_ge hb, h2, by omega⟩
    · rw [if_neg hb]
      have h2' : pf < 2 ^ j := by
        rcases Nat.lt_or_ge pf (2 ^ j) with h | h
        · exact h
        · exfalso
          apply hb
          have hd : pf / 2 ^ j = 1 := by
            apply Nat.div_eq_of_lt_le
            · omega
            · rw [pow_succ] at h2
              omega
          rw [Nat.testBit_to_div_mod, hd]
          decide
      obtain ⟨k, hk1, hk2, hk3, hk4⟩ := ih h1 h2'
      exact ⟨k, hk1, hk2, hk3, by omega⟩

/-- C7 (counterexample): at `f = FIXED_1` (semantic value `1.0`, which
lies in `[2^0, 2^1)`) the claim requires `get_scale` to return `0`, but
it returns `1`: the returned exponent is one above the floor log2. -/
theorem get_scale_off_by_one :
    get_scale 65536 = 1 ∧ ¬((2 : Int) ^ (get_scale 65536 + 16).toNat ≤ 65536) := by
  constructor <;> decide

/-- C7 (amended): for positive `f`, `get_scale f = s` is the exponent
with `2^(s+15) ≤ f < 2^(s+16)`: the semantic value `f / 2^16` lies in
`[2^(s-1), 2^s)`, one position above the floor-log2 convention the claim
states (callers compensate by using `get_scale f - 1`). -/
theorem get_scale_bounds (f : Int) (h1 : 0 < f) (h2 : f < 2 ^ 31) :
    0 ≤ get_scale f + 15 ∧
    (2 : Int) ^ (get_scale f + 15).toNat ≤ f ∧ f < 2 ^ (get_scale f + 16).toNat := by
  have hpat : pat32 f = f.toNat := pat32_small (by omega) (by omega)
  obtain ⟨k, hk1, hk2, hk3, hk4⟩ :=
    getScaleAux_spec f.toNat 31 (by omega) (by omega)
  unfold get_scale
  rw [hpat, hk1]
  have e1 : ((k : Int) - 15 + 15).toNat = k := by omega
  have e2 : ((k : Int) - 15 + 16).toNat = k + 1 := by omega
  rw [e1, e2]
  refine ⟨by omega, ?_, ?_⟩
  · have h := hk2
    have hc : ((2 ^ k : Nat) : Int) ≤ ((f.toNat : Nat) : Int) := by exact_mod_cast h
    push_cast at hc
    rw [Int.toNat_of_nonneg (by omega)] at hc
    exact hc
  · have h := hk3
    have hc : ((f.toNat : Nat) : Int) < ((2 ^ (k + 1) : Nat) : Int) := by exact_mod_cast h
    push_cast at hc
    rw [Int.toNat_of_nonneg (by omega)] at hc
    exact hc

/-- C7 (witness). -/
theorem get_scale_bounds_witness :
    0 ≤ get_scale 98304 + 15 ∧
    (2 : Int) ^ (get_scale 98304 + 15).toNat ≤ 98304 ∧
    (98304 : Int) < 2 ^ (get_scale 98304 + 16).toNat :=
  get_scale_bounds 98304 (by decide) (by decide)

/-! ## Claim theorems: decimal rendering -/

/-- C6 (counterexample): the renderer does not keep one digit after the
decimal point: the encoding of `1.0` renders as `" 1."`, not `" 1.0"` —
the trim loop removes every trailing `'0'` and only stops at the `'.'`
itself. -/
theorem dec_str_one_not_claimed : fixed_to_dec_str 65536 ≠ " 1.0" := by decide

/-- C6 (amended): the decimal renderer trims all trailing zero digits,
including the digit immediately after the point: the encoding of `1.0`
renders as `" 1."`, the encoding of `0` as `" 0."` (its buffer is also
one byte short, truncating the 12th fractional digit before trimming),
while `-2.5` renders as `"-2.5"` as claimed. -/
theorem dec_str_literals :
    fixed_to_dec_str 65536 = " 1." ∧ fixed_to_dec_str (-163840) = "-2.5" ∧
    fixed_to_dec_str 0 = " 0." := by
  refine ⟨by decide, by decide, by decide⟩

end Tinymath
